import Mathlib

/-!
Verification of the tftaglint core: extraction of a canonical resource/tag
model from Terraform source files and plan JSON, and the rule-evaluation
engine producing an ordered violation list.

Go maps (`map[string]string`, `map[string]interface{}`) are embedded as
association lists `List (String × String)`: indexing `m[k]` is
`List.lookup`, assignment `m[k] = v` is `insertGo` (overwrite in place,
append fresh keys), and a `for k, v := range m` loop walks the list in its
list order.  The Go runtime deliberately leaves the range order of a map
unspecified, so two lists that are permutations of each other with the same
lookup function represent the same Go map; any property that depends on the
list order of a map is a property the Go program does not guarantee.

Go `strings.Split(s, ".")` and `strings.HasPrefix` are embedded over
character lists (`splitDot`, `hasPrefixGo`) so that all definitions reduce
inside the kernel; both agree with the Go functions on every input.
-/

namespace Tftaglint

/-- hcl.Pos: a source position (Line, Column, Byte). -/
structure HclPos where
  line : Nat
  column : Nat
  byte : Nat
deriving DecidableEq

/-- hcl.Range: a source range; the Go field End is `stop` here (keyword). -/
structure HclRange where
  filename : String
  start : HclPos
  stop : HclPos
deriving DecidableEq

/-- parser.Resource: one extracted infrastructure declaration. -/
structure Resource where
  type : String
  name : String
  tags : List (String × String)
  location : HclRange
  file : String
deriving DecidableEq

/-- parser.ParseResult: resources in discovery order plus recoverable errors. -/
structure ParseResult where
  resources : List Resource
  errors : List String
deriving DecidableEq

/-- config.Condition: a single {Tag, Value} equality gate. -/
structure Condition where
  tag : String
  value : String

/-- config.TagConstraint: allowed values for one tag. -/
structure TagConstraint where
  tag : String
  allowedValues : List String

/-- config.TagPattern: a pre-compiled tag-name matcher plus its message.
The regex is compiled by the external config loader; the core only calls
`Validate(tagName) bool`, embedded as the function field `accepts`. -/
structure TagPattern where
  accepts : String → Bool
  message : String

/-- config.Rule. -/
structure Rule where
  name : String
  description : String
  requiredTags : List String
  forbiddenTags : List String
  condition : Option Condition
  resourceTypes : List String
  tagConstraints : List TagConstraint
  tagPatterns : List TagPattern

/-- config.Global. -/
structure Global where
  alwaysRequiredTags : List String
  ignoreResourceTypes : List String

/-- config.Config. -/
structure Config where
  rules : List Rule
  global : Global

/-- validator.Violation. -/
structure Violation where
  rule : String
  description : String
  resource : Resource
  message : String
deriving DecidableEq

/-- Go map indexing `m[k]` on the association-list embedding. -/
def lookupTag (tags : List (String × String)) (k : String) : Option String :=
  tags.lookup k

/-- Go map assignment `m[k] = v`: overwrite the value of an existing key in
place, append a fresh key at the end. -/
def insertGo : List (String × String) → String → String → List (String × String)
  | [], k, v => [(k, v)]
  | kv :: rest, k, v => if kv.1 == k then (k, v) :: rest else kv :: insertGo rest k v

/-! ## validator.go -/

/-- Validator.shouldIgnoreResource. -/
def shouldIgnoreResource (cfg : Config) (resourceType : String) : Bool :=
  cfg.global.ignoreResourceTypes.any fun ignored => resourceType == ignored

/-- Validator.checkGlobalRequiredTags. -/
def checkGlobalRequiredTags (cfg : Config) (resource : Resource) : List Violation :=
  cfg.global.alwaysRequiredTags.filterMap fun requiredTag =>
    if (lookupTag resource.tags requiredTag).isSome then none
    else some { rule := "global-required-tags", description := "Global required tags",
                resource := resource, message := "Missing required tag: " ++ requiredTag }

/-- Validator.isResourceTypeInList. -/
def isResourceTypeInList (resourceType : String) (list : List String) : Bool :=
  list.any fun t => t == resourceType

/-- Validator.checkCondition: `value, exists := Tags[Tag]; exists && value == Value`. -/
def checkCondition (resource : Resource) (condition : Condition) : Bool :=
  match lookupTag resource.tags condition.tag with
  | some value => value == condition.value
  | none => false

/-- Validator.isValueAllowed. -/
def isValueAllowed (value : String) (allowedValues : List String) : Bool :=
  allowedValues.any fun allowed => value == allowed

/-- Validator.checkRule, required-tags loop. -/
def checkRequiredTags (resource : Resource) (rule : Rule) : List Violation :=
  rule.requiredTags.filterMap fun requiredTag =>
    if (lookupTag resource.tags requiredTag).isSome then none
    else some { rule := rule.name, description := rule.description, resource := resource,
                message := "Missing required tag: " ++ requiredTag }

/-- Validator.checkRule, forbidden-tags loop. -/
def checkForbiddenTags (resource : Resource) (rule : Rule) : List Violation :=
  rule.forbiddenTags.filterMap fun forbiddenTag =>
    if (lookupTag resource.tags forbiddenTag).isSome then
      some { rule := rule.name, description := rule.description, resource := resource,
             message := "Forbidden tag found: " ++ forbiddenTag }
    else none

/-- Validator.checkRule, tag-constraints loop. -/
def checkTagConstraints (resource : Resource) (rule : Rule) : List Violation :=
  rule.tagConstraints.filterMap fun constraint =>
    match lookupTag resource.tags constraint.tag with
    | some value =>
        if isValueAllowed value constraint.allowedValues then none
        else some { rule := rule.name, description := rule.description, resource := resource,
                    message := "Invalid value for tag " ++ constraint.tag ++ ": '" ++ value ++
                      "'. Allowed values: " ++ String.intercalate ", " constraint.allowedValues }
    | none => none

/-- Validator.checkRule, tag-patterns loop: `for tagName := range resource.Tags`
over every tag key, against every pattern of the rule. -/
def checkTagPatterns (resource : Resource) (rule : Rule) : List Violation :=
  resource.tags.flatMap fun kv =>
    rule.tagPatterns.filterMap fun pat =>
      if pat.accepts kv.1 then none
      else some { rule := rule.name, description := rule.description, resource := resource,
                  message := "Tag name '" ++ kv.1 ++ "' does not match pattern: " ++ pat.message }

/-- Validator.checkRule: two applicability gates, then the four checks in
source order (required, forbidden, constraints, patterns). -/
def checkRule (resource : Resource) (rule : Rule) : List Violation :=
  if rule.resourceTypes.length > 0 && !isResourceTypeInList resource.type rule.resourceTypes then
    []
  else if (match rule.condition with
           | some condition => !checkCondition resource condition
           | none => false) then
    []
  else
    checkRequiredTags resource rule ++ checkForbiddenTags resource rule ++
      checkTagConstraints resource rule ++ checkTagPatterns resource rule

/-- Validator.Validate: per resource in input order, skip ignored types,
else global required tags first, then each rule in configured order. -/
def Validate (cfg : Config) (resources : List Resource) : List Violation :=
  resources.flatMap fun resource =>
    if shouldIgnoreResource cfg resource.type then []
    else checkGlobalRequiredTags cfg resource ++ cfg.rules.flatMap (checkRule resource)

/-! ## plan_parser.go -/

/-- Decoded JSON values as found in a plan record's `values` map.  Only
string entries are ever used by the code; numbers are embedded as Int
(their only role is being non-strings). -/
inductive JsonValue where
  | str (s : String)
  | num (n : Int)
  | boolean (b : Bool)
  | null
  | arr (items : List JsonValue)
  | obj (entries : List (String × JsonValue))

/-- parser.PlannedResource (the decoded plan JSON record). -/
structure PlannedResource where
  address : String
  type : String
  name : String
  values : List (String × JsonValue)

/-- Go strings.Split(s, ".") for the one-character separator, over the
character list of s: Split("", ".") = [""], Split("a.", ".") = ["a", ""]. -/
def splitDotAux : List Char → String → List String
  | [], acc => [acc]
  | c :: cs, acc => if c = '.' then acc :: splitDotAux cs "" else splitDotAux cs (acc.push c)

/-- strings.Split(address, "."). -/
def splitDot (s : String) : List String :=
  splitDotAux s.toList ""

/-- Go strings.HasPrefix over character lists. -/
def hasPrefixChars : List Char → List Char → Bool
  | _, [] => true
  | [], _ :: _ => false
  | c :: cs, p :: ps => if p = c then hasPrefixChars cs ps else false

/-- strings.HasPrefix(s, pre). -/
def hasPrefixGo (s pre : String) : Bool :=
  hasPrefixChars s.toList pre.toList

/-- parser.isResourceType: the fixed provider-prefix allow-list. -/
def isResourceType (s : String) : Bool :=
  ["aws_", "google_", "azurerm_", "alicloud_", "oci_"].any fun p => hasPrefixGo s p

/-- The scan loop of convertPlannedResource: for i in 0..len(parts)-2, the
first parts[i] passing isResourceType is the type, parts[i+1] the name. -/
def findTypeName : List String → Option (String × String)
  | t :: n :: rest => if isResourceType t then some (t, n) else findTypeName (n :: rest)
  | _ => none

/-- The `case map[string]interface{}` branch of extractTagsFromValues: range
over the object's entries, keeping only string-valued ones; any other shape
of the field contributes nothing. -/
def insertStringEntries (tags : List (String × String)) : JsonValue → List (String × String)
  | .obj entries =>
      entries.foldl (fun m kv =>
        match kv.2 with
        | .str s => insertGo m kv.1 s
        | _ => m) tags
  | _ => tags

/-- parser.extractTagsFromValues: merge `tags` first, then overlay `tags_all`. -/
def extractTagsFromValues (values : List (String × JsonValue)) : List (String × String) :=
  let tags : List (String × String) := []
  let tags :=
    match values.lookup "tags" with
    | some tagsValue => insertStringEntries tags tagsValue
    | none => tags
  match values.lookup "tags_all" with
  | some tagsAllValue => insertStringEntries tags tagsAllValue
  | none => tags

/-- parser.convertPlannedResource: derive (Type, Name) from the dotted
address, with the fallback to the final two segments when the scan found no
type or an empty name; Location is synthetic (line 1, column 1, byte 0). -/
def convertPlannedResource (planned : PlannedResource) (filename : String) : Option Resource :=
  let parts := splitDot planned.address
  if parts.length < 2 then none
  else
    let found := findTypeName parts
    let resourceType := (found.map Prod.fst).getD ""
    let resourceName := (found.map Prod.snd).getD ""
    let finalType :=
      if resourceType == "" || resourceName == "" then parts.getD (parts.length - 2) ""
      else resourceType
    let finalName :=
      if resourceType == "" || resourceName == "" then parts.getD (parts.length - 1) ""
      else resourceName
    some { type := finalType, name := finalName,
           tags := extractTagsFromValues planned.values,
           location := { filename := filename, start := ⟨1, 1, 0⟩, stop := ⟨1, 1, 0⟩ },
           file := filename }

/-! ## parser.go (source extractor)

The HCL grammar is external (spec §1): its output is an abstract block tree.
Expression kinds are a closed tagged variant: a statically-literal string
(LiteralValueExpr of cty.String, or a TemplateExpr that IsStringLiteral),
an object construction, or anything else (traversals, interpolations,
function calls, non-string literals) — `unresolved`, for which
getStringValue returns nothing. -/

/-- An object-construction key: a bare identifier (single-root traversal,
possibly wrapped in ObjectConsKeyExpr), a static string literal/template,
or any other key expression (rejected by getStringValue). -/
inductive ObjKey where
  | ident (name : String)
  | staticString (s : String)
  | unresolved

/-- An HCL expression as far as tag extraction observes it. -/
inductive HclExpr where
  | staticString (s : String)
  | objectCons (items : List (ObjKey × HclExpr))
  | unresolved

/-- parser.getStringValue: only statically-literal strings resolve. -/
def getStringValue : HclExpr → Option String
  | .staticString s => some s
  | _ => none

/-- The key-resolution switch of extractTagsFromExpression. -/
def getKeyString : ObjKey → Option String
  | .ident name => some name
  | .staticString s => some s
  | .unresolved => none

/-- parser.extractTagsFromExpression: on an object construction, each item
whose key and value both resolve becomes one tag assignment. -/
def extractTagsFromExpression (expr : HclExpr) (tags : List (String × String)) :
    List (String × String) :=
  match expr with
  | .objectCons items =>
      items.foldl (fun m item =>
        match getKeyString item.1 with
        | some key =>
            match getStringValue item.2 with
            | some val => insertGo m key val
            | none => m
        | none => m) tags
  | _ => tags

mutual

/-- hclsyntax.Body: attributes (a Go map name → expression) and child blocks. -/
inductive HclBody : Type where
  | mk : List (String × HclExpr) → List HclBlock → HclBody

/-- hclsyntax.Block: kind (Go field Type), labels, body, DefRange. -/
inductive HclBlock : Type where
  | mk : String → List String → HclBody → HclRange → HclBlock

end

/-- Attributes of a body. -/
def HclBody.attributes : HclBody → List (String × HclExpr)
  | .mk attrs _ => attrs

/-- Child blocks of a body. -/
def HclBody.blocks : HclBody → List HclBlock
  | .mk _ bs => bs

/-- Block kind (Go block.Type). -/
def HclBlock.kind : HclBlock → String
  | .mk k _ _ _ => k

/-- Block labels. -/
def HclBlock.labels : HclBlock → List String
  | .mk _ ls _ _ => ls

/-- Block body. -/
def HclBlock.body : HclBlock → HclBody
  | .mk _ _ b _ => b

/-- Block DefRange. -/
def HclBlock.defRange : HclBlock → HclRange
  | .mk _ _ _ r => r

/-- parser.extractTags: the `tags` attribute, then legacy `tags { ... }`
blocks whose inner attributes have literal string values. -/
def extractTags (body : HclBody) : List (String × String) :=
  let tags := body.attributes.foldl (fun m attr =>
    if attr.1 == "tags" then extractTagsFromExpression attr.2 m else m) []
  body.blocks.foldl (fun m block =>
    if block.kind == "tags" then
      block.body.attributes.foldl (fun m2 attr =>
        match getStringValue attr.2 with
        | some val => insertGo m2 attr.1 val
        | none => m2) m
    else m) tags

/-- The outcome of the external ParseHCLFile call on one file. -/
inductive FileParse where
  | failed (msg : String)
  | parsed (body : HclBody)

/-- parser.parseFile: a parse failure is one error; otherwise one Resource
per top-level `resource` block with at least two labels. -/
def parseFile (filename : String) (fp : FileParse) : Except String (List Resource) :=
  match fp with
  | .failed msg => .error ("failed to parse HCL: " ++ msg)
  | .parsed body =>
      .ok <| body.blocks.filterMap fun block =>
        if block.kind = "resource" ∧ 2 ≤ block.labels.length then
          some { type := block.labels.getD 0 "", name := block.labels.getD 1 "",
                 tags := extractTags block.body, location := block.defRange,
                 file := filename }
        else none

/-- parser.ParseTerraformFiles over the discovered files in walk order:
a failing file appends one wrapped error, a successful one its resources. -/
def ParseTerraformFiles (files : List (String × FileParse)) : ParseResult :=
  files.foldl
    (fun result file =>
      match parseFile file.1 file.2 with
      | .error e => { result with errors := result.errors ++ [file.1 ++ ": " ++ e] }
      | .ok resources => { result with resources := result.resources ++ resources })
    { resources := [], errors := [] }

/-! ## Specification-side definitions

These follow the words of the specification (not the code) and exist to be
compared with the code-derived definitions above. -/

/-- The last-assignment-wins view of ranging over an association list and
assigning each entry into a Go map: the value of k is its last occurrence. -/
def lookupLast (l : List (String × String)) (k : String) : Option String :=
  l.reverse.lookup k

/-- Left-biased choice on optional values. -/
def firstSome (a b : Option String) : Option String :=
  match a with
  | some v => some v
  | none => b

/-- The string-valued entries of a decoded JSON value, in order: what the
spec calls "only string-valued entries are kept, others are dropped"; a
non-object value has none. -/
def stringEntries : JsonValue → List (String × String)
  | .obj entries =>
      entries.filterMap fun kv =>
        match kv.2 with
        | .str s => some (kv.1, s)
        | _ => none
  | _ => []

/-- The string entries contributed by one named field of a plan record's
value map (`tags` or `tags_all`); an absent field contributes nothing. -/
def tagsFieldEntries (values : List (String × JsonValue)) (field : String) :
    List (String × String) :=
  match values.lookup field with
  | some v => stringEntries v
  | none => []

/-- The claim's identity derivation, as worded: scan segments left-to-right,
the first segment matching the allow-list is Type and its follower is Name;
only "if no segment matches" fall back to the final two segments. -/
def claimedTypeName (address : String) : Option (String × String) :=
  let parts := splitDot address
  if parts.length < 2 then none
  else
    match (parts.zip parts.tail).find? (fun p => isResourceType p.1) with
    | some (t, n) => some (t, n)
    | none => some (parts.getD (parts.length - 2) "", parts.getD (parts.length - 1) "")

/-- The amended identity derivation: additionally fall back to the final two
segments when the matched segment's follower is the empty segment. -/
def amendedTypeName (address : String) : Option (String × String) :=
  let parts := splitDot address
  if parts.length < 2 then none
  else
    match (parts.zip parts.tail).find? (fun p => isResourceType p.1) with
    | some (t, n) =>
        if n = "" then
          some (parts.getD (parts.length - 2) "", parts.getD (parts.length - 1) "")
        else some (t, n)
    | none => some (parts.getD (parts.length - 2) "", parts.getD (parts.length - 1) "")

/-- Per-constraint semantics as the claim words them: a violation exactly
when the constraint's Tag is present and its value is not one of
AllowedValues; an absent tag never triggers. -/
def constraintViolationSpec (resource : Resource) (rule : Rule) (c : TagConstraint) :
    Option Violation :=
  match lookupTag resource.tags c.tag with
  | none => none
  | some value =>
      if value ∈ c.allowedValues then none
      else some { rule := rule.name, description := rule.description, resource := resource,
                  message := "Invalid value for tag " ++ c.tag ++ ": '" ++ value ++
                    "'. Allowed values: " ++ String.intercalate ", " c.allowedValues }

/-- The Resources a file contributes to ParseTerraformFiles (none on a
parse failure). -/
def okResources (file : String × FileParse) : List Resource :=
  match parseFile file.1 file.2 with
  | .ok rs => rs
  | .error _ => []

/-- The Error a file contributes to ParseTerraformFiles, wrapping its
filename around the underlying cause. -/
def errOf (file : String × FileParse) : Option String :=
  match parseFile file.1 file.2 with
  | .error e => some (file.1 ++ ": " ++ e)
  | .ok _ => none

/-! ## Concrete fixtures used by the claims' example scenarios -/

/-- A rule with every optional part empty. -/
def emptyRule : Rule :=
  { name := "", description := "", requiredTags := [], forbiddenTags := [], condition := none,
    resourceTypes := [], tagConstraints := [], tagPatterns := [] }

/-- A placeholder source range. -/
def noRange : HclRange := { filename := "", start := ⟨0, 0, 0⟩, stop := ⟨0, 0, 0⟩ }

/-- The combined scenario's resource: Tags {"Test": "true"}. -/
def c1Resource : Resource :=
  { type := "aws_instance", name := "r", tags := [("Test", "true")], location := noRange,
    file := "main.tf" }

/-- The combined scenario's config: Global.AlwaysRequiredTags ["Owner"],
one required-tags rule then one forbidden-tags rule. -/
def c1Config : Config :=
  { rules := [{ emptyRule with
                name := "required-tags", requiredTags := ["Name"] },
              { emptyRule with
                name := "no-test-tags", forbiddenTags := ["Test"] }],
    global := { alwaysRequiredTags := ["Owner"], ignoreResourceTypes := [] } }

/-- A config whose resources are never ignored and which the ignore-list
scenario uses: one IAM type exempted, one required tag. -/
def c1IgnConfig : Config :=
  { rules := [{ emptyRule with
                name := "required-tags", requiredTags := ["Name"] }],
    global := { alwaysRequiredTags := ["Owner"], ignoreResourceTypes := ["aws_iam_role"] } }

/-- A resource of the exempted type with no tags at all. -/
def c1IgnResource : Resource :=
  { type := "aws_iam_role", name := "role", tags := [], location := noRange, file := "iam.tf" }

/-- One everything-fails pattern rule. -/
def c2Config : Config :=
  { rules := [{ emptyRule with
                name := "patterns",
                tagPatterns := [{ accepts := (fun _ => false), message := "m" }] }],
    global := { alwaysRequiredTags := [], ignoreResourceTypes := [] } }

/-- One presentation order of the tag map {"a": "1", "b": "2"}. -/
def c2TagsA : List (String × String) := [("a", "1"), ("b", "2")]

/-- The other presentation order of the same tag map. -/
def c2TagsB : List (String × String) := [("b", "2"), ("a", "1")]

/-- The resource carrying the map in the first presentation order. -/
def c2ResA : Resource :=
  { type := "aws_instance", name := "r", tags := c2TagsA, location := noRange, file := "f.tf" }

/-- The same resource with the map in the other presentation order. -/
def c2ResB : Resource := { c2ResA with tags := c2TagsB }

/-- A rule with one leading-uppercase tag-name pattern. -/
def c7Rule : Rule :=
  { emptyRule with
    name := "naming",
    tagPatterns :=
      [{ accepts := (fun name => match name.toList with | [] => false | c :: _ => c.isUpper),
         message := "must start uppercase" }] }

/-- Resource{Tags: {"Name": "x", "environment": "prod"}}. -/
def c7Resource : Resource :=
  { type := "aws_instance", name := "r", tags := [("Name", "x"), ("environment", "prod")],
    location := noRange, file := "f.tf" }

/-- A rule constraining Environment to {dev, staging, prod}. -/
def c6Rule : Rule :=
  { emptyRule with
    name := "env-values",
    tagConstraints := [{ tag := "Environment", allowedValues := ["dev", "staging", "prod"] }] }

/-- A rule whose one constraint has an empty AllowedValues list. -/
def c6EmptyRule : Rule :=
  { emptyRule with
    name := "no-values",
    tagConstraints := [{ tag := "Environment", allowedValues := [] }] }

/-- Rule{Condition: {Tag: "Environment", Value: "prod"}, RequiredTags: ["Owner"]}. -/
def c8Rule : Rule :=
  { emptyRule with
    name := "prod-owner",
    condition := some ⟨"Environment", "prod"⟩,
    requiredTags := ["Owner"] }

/-- A rule restricted to aws_s3_bucket resources. -/
def c8TypedRule : Rule :=
  { emptyRule with
    name := "bucket-only",
    resourceTypes := ["aws_s3_bucket"],
    requiredTags := ["Owner"] }

/-- Resource{Tags: {"Environment": "dev"}}. -/
def c8Resource : Resource :=
  { type := "aws_instance", name := "r", tags := [("Environment", "dev")], location := noRange,
    file := "f.tf" }

/-- A parsed one-resource body for the per-file isolation scenario. -/
def c9Body (typ nam : String) : HclBody :=
  .mk [] [.mk "resource" [typ, nam]
            (.mk [("tags", .objectCons [(.ident "Name", .staticString "x")])] []) noRange]

/-- The three-file input of the isolation scenario: one malformed file
between two valid ones. -/
def c9Files : List (String × FileParse) :=
  [("a.tf", .parsed (c9Body "aws_instance" "web")),
   ("bad.tf", .failed "boom"),
   ("c.tf", .parsed (c9Body "aws_s3_bucket" "logs"))]

/-- The Resource the plan extractor produces for address
"google_compute_instance.vm" in plan.json. -/
def c3WitnessResource : Resource :=
  { type := "google_compute_instance", name := "vm", tags := [],
    location := { filename := "plan.json", start := ⟨1, 1, 0⟩, stop := ⟨1, 1, 0⟩ },
    file := "plan.json" }

/-- The Resource the plan extractor produces for address "aws_vpc.main"
in plan.json. -/
def c10Resource : Resource :=
  { type := "aws_vpc", name := "main", tags := [],
    location := { filename := "plan.json", start := ⟨1, 1, 0⟩, stop := ⟨1, 1, 0⟩ },
    file := "plan.json" }

/-! ## Helper lemmas -/

theorem lookupTag_insertGo (m : List (String × String)) (k v k' : String) :
    lookupTag (insertGo m k v) k' = if k = k' then some v else lookupTag m k' := by
  induction m with
  | nil =>
      by_cases h : k = k'
      · subst h; simp [insertGo, lookupTag, List.lookup]
      · have hb : (k' == k) = false := beq_eq_false_iff_ne.mpr (Ne.symm h)
        simp [insertGo, lookupTag, List.lookup, hb, h]
  | cons kv rest ih =>
      obtain ⟨k1, v1⟩ := kv
      by_cases h1 : k1 = k
      · by_cases h2 : k = k'
        · subst h1; subst h2
          simp [insertGo, lookupTag, List.lookup]
        · have hb : (k' == k1) = false :=
            beq_eq_false_iff_ne.mpr fun e => h2 (h1 ▸ e.symm)
          have hb2 : (k' == k) = false := beq_eq_false_iff_ne.mpr fun e => h2 e.symm
          simp [insertGo, lookupTag, List.lookup, h1, hb, hb2, h2]
      · have hb1 : (k1 == k) = false := beq_eq_false_iff_ne.mpr h1
        by_cases hk : k' = k1
        · have h2 : ¬k = k' := fun e => h1 (by rw [hk] at e; exact e.symm)
          have hb : (k' == k1) = true := beq_iff_eq.mpr hk
          simp [insertGo, lookupTag, List.lookup, hb1, hb, h2]
        · have hb : (k' == k1) = false := beq_eq_false_iff_ne.mpr hk
          simp only [insertGo, hb1, Bool.false_eq_true, if_false]
          simp only [lookupTag, List.lookup, hb] at ih ⊢
          exact ih

theorem lookup_append (l1 l2 : List (String × String)) (k : String) :
    (l1 ++ l2).lookup k = firstSome (l1.lookup k) (l2.lookup k) := by
  induction l1 with
  | nil => simp [firstSome]
  | cons kv rest ih =>
      obtain ⟨k1, v1⟩ := kv
      by_cases h : k = k1
      · have hb : (k == k1) = true := beq_iff_eq.mpr h
        simp [List.lookup, hb, firstSome]
      · have hb : (k == k1) = false := beq_eq_false_iff_ne.mpr h
        simp [List.lookup, hb, ih]

theorem firstSome_none_right (a : Option String) : firstSome a none = a := by
  cases a <;> rfl

theorem firstSome_assoc (a b c : Option String) :
    firstSome (firstSome a b) c = firstSome a (firstSome b c) := by
  cases a <;> rfl

theorem lookupTag_foldl_insertGo (l : List (String × String)) :
    ∀ (m : List (String × String)) (k : String),
      lookupTag (l.foldl (fun m kv => insertGo m kv.1 kv.2) m) k
        = firstSome (lookupLast l k) (lookupTag m k) := by
  induction l with
  | nil => intro m k; simp [lookupLast, firstSome, List.lookup]
  | cons kv rest ih =>
      intro m k
      rw [List.foldl_cons, ih, lookupTag_insertGo]
      have hlast : lookupLast (kv :: rest) k
          = firstSome (lookupLast rest k) (if kv.1 = k then some kv.2 else none) := by
        obtain ⟨k1, v1⟩ := kv
        by_cases h : k = k1
        · have hb : (k == k1) = true := beq_iff_eq.mpr h
          have h2 : k1 = k := h.symm
          simp [lookupLast, lookup_append, List.lookup, hb, h2]
        · have hb : (k == k1) = false := beq_eq_false_iff_ne.mpr h
          have h2 : ¬k1 = k := fun e => h e.symm
          simp [lookupLast, lookup_append, List.lookup, hb, h2]
      rw [hlast, firstSome_assoc]
      congr 1
      by_cases h : kv.1 = k <;> simp [firstSome, h]

theorem shouldIgnoreResource_iff (cfg : Config) (t : String) :
    shouldIgnoreResource cfg t = true ↔ t ∈ cfg.global.ignoreResourceTypes := by
  unfold shouldIgnoreResource
  rw [List.any_eq_true]
  constructor
  · rintro ⟨x, hx, he⟩
    rw [beq_iff_eq] at he
    rwa [he]
  · intro h
    exact ⟨t, h, beq_self_eq_true t⟩

theorem isResourceTypeInList_iff (t : String) (l : List String) :
    isResourceTypeInList t l = true ↔ t ∈ l := by
  unfold isResourceTypeInList
  rw [List.any_eq_true]
  constructor
  · rintro ⟨x, hx, he⟩
    rw [beq_iff_eq] at he
    rwa [← he]
  · intro h
    exact ⟨t, h, beq_self_eq_true t⟩

theorem isValueAllowed_iff (v : String) (l : List String) :
    isValueAllowed v l = true ↔ v ∈ l := by
  unfold isValueAllowed
  rw [List.any_eq_true]
  constructor
  · rintro ⟨x, hx, he⟩
    rw [beq_iff_eq] at he
    rwa [he]
  · intro h
    exact ⟨v, h, beq_self_eq_true v⟩

theorem checkCondition_iff (resource : Resource) (c : Condition) :
    checkCondition resource c = true ↔ lookupTag resource.tags c.tag = some c.value := by
  unfold checkCondition
  cases h : lookupTag resource.tags c.tag <;> simp [beq_iff_eq]

theorem filterMap_if_none {α β : Type} (p : α → Bool) (f : α → β) (l : List α) :
    (l.filterMap fun a => if p a then none else some (f a))
      = (l.filter fun a => !p a).map f := by
  induction l with
  | nil => rfl
  | cons a l ih => cases h : p a <;> simp [h, ih]

theorem filterMap_if_some {α β : Type} (p : α → Bool) (f : α → β) (l : List α) :
    (l.filterMap fun a => if p a then some (f a) else none)
      = (l.filter p).map f := by
  induction l with
  | nil => rfl
  | cons a l ih => cases h : p a <;> simp [h, ih]

theorem getD_mem_of_lt {α : Type} (l : List α) (d : α) {i : Nat} (h : i < l.length) :
    l.getD i d ∈ l := by
  rw [List.getD_eq_getElem l d h]
  exact List.getElem_mem h

theorem findTypeName_mem :
    ∀ (parts : List String) (t n : String),
      findTypeName parts = some (t, n) → t ∈ parts ∧ n ∈ parts := by
  intro parts
  induction parts with
  | nil => intro t n h; simp [findTypeName] at h
  | cons x rest ih =>
      intro t n h
      cases rest with
      | nil => simp [findTypeName] at h
      | cons y rest' =>
          by_cases hx : isResourceType x = true
          · simp [findTypeName, hx] at h
            obtain ⟨ht, hn⟩ := h
            exact ⟨by simp [ht.symm], by simp [hn.symm]⟩
          · simp [findTypeName, hx] at h
            obtain ⟨h1, h2⟩ := ih t n h
            exact ⟨List.mem_cons_of_mem x h1, List.mem_cons_of_mem x h2⟩

theorem findTypeName_eq_scan :
    ∀ parts : List String,
      findTypeName parts = (parts.zip parts.tail).find? fun p => isResourceType p.1 := by
  intro parts
  induction parts with
  | nil => rfl
  | cons x rest ih =>
      cases rest with
      | nil => rfl
      | cons y rest' =>
          by_cases hx : isResourceType x = true <;>
            simp [findTypeName, List.find?, hx, ih, List.zip]

theorem findTypeName_fst_ne_empty {parts : List String} {t n : String}
    (h : findTypeName parts = some (t, n)) : t ≠ "" := by
  induction parts with
  | nil => simp [findTypeName] at h
  | cons x rest ih =>
      cases rest with
      | nil => simp [findTypeName] at h
      | cons y rest' =>
          by_cases hx : isResourceType x = true
          · simp [findTypeName, hx] at h
            intro he
            rw [h.1, he] at hx
            exact absurd hx (by decide)
          · simp [findTypeName, hx] at h
            exact ih h

theorem foldl_strInsert_eq (entries : List (String × JsonValue)) :
    ∀ tags : List (String × String),
      entries.foldl (fun m kv =>
        match kv.2 with
        | .str s => insertGo m kv.1 s
        | _ => m) tags
      = (entries.filterMap fun kv =>
          match kv.2 with
          | .str s => some (kv.1, s)
          | _ => none).foldl (fun m kv => insertGo m kv.1 kv.2) tags := by
  induction entries with
  | nil => intro tags; rfl
  | cons kv rest ih =>
      intro tags
      cases h : kv.2 <;> simp [h, ih]

theorem insertStringEntries_eq (v : JsonValue) (tags : List (String × String)) :
    insertStringEntries tags v
      = (stringEntries v).foldl (fun m kv => insertGo m kv.1 kv.2) tags := by
  cases v <;> simp [insertStringEntries, stringEntries, foldl_strInsert_eq]

theorem lookupTag_insertStringEntries (v : JsonValue) (tags : List (String × String))
    (k : String) :
    lookupTag (insertStringEntries tags v) k
      = firstSome (lookupLast (stringEntries v) k) (lookupTag tags k) := by
  rw [insertStringEntries_eq, lookupTag_foldl_insertGo]

theorem ParseTerraformFiles_foldl (files : List (String × FileParse)) :
    ∀ acc : ParseResult,
      files.foldl
        (fun result file =>
          match parseFile file.1 file.2 with
          | .error e => { result with errors := result.errors ++ [file.1 ++ ": " ++ e] }
          | .ok resources => { result with resources := result.resources ++ resources }) acc
      = { resources := acc.resources ++ files.flatMap okResources,
          errors := acc.errors ++ files.filterMap errOf } := by
  induction files with
  | nil => intro acc; simp
  | cons f rest ih =>
      intro acc
      rw [List.foldl_cons, ih]
      cases h : parseFile f.1 f.2 <;>
        simp [okResources, errOf, h, List.flatMap_cons]

theorem parseFile_resources (filename : String) (body : HclBody) (resources : List Resource)
    (r : Resource) (hok : parseFile filename (.parsed body) = .ok resources)
    (hmem : r ∈ resources) :
    ∃ block ∈ body.blocks, block.kind = "resource" ∧ 2 ≤ block.labels.length
      ∧ r.type = block.labels.getD 0 "" ∧ r.name = block.labels.getD 1 "" := by
  simp only [parseFile, Except.ok.injEq] at hok
  rw [← hok, List.mem_filterMap] at hmem
  obtain ⟨block, hb, hf⟩ := hmem
  by_cases hc : block.kind = "resource" ∧ 2 ≤ block.labels.length
  · rw [if_pos hc] at hf
    have he := Option.some.inj hf
    exact ⟨block, hb, hc.1, hc.2, by rw [← he], by rw [← he]⟩
  · rw [if_neg hc] at hf
    exact absurd hf (by simp)

theorem convertPlannedResource_eq (planned : PlannedResource) (filename : String) :
    convertPlannedResource planned filename
      = match amendedTypeName planned.address with
        | none => none
        | some (t, n) =>
            some { type := t, name := n, tags := extractTagsFromValues planned.values,
                   location := { filename := filename, start := ⟨1, 1, 0⟩, stop := ⟨1, 1, 0⟩ },
                   file := filename } := by
  simp only [convertPlannedResource, amendedTypeName, ← findTypeName_eq_scan]
  by_cases hlen : (splitDot planned.address).length < 2
  · simp [hlen]
  · simp only [hlen, if_false]
    cases hf : findTypeName (splitDot planned.address) with
    | none => simp [hf]
    | some tn =>
        obtain ⟨t, n⟩ := tn
        have ht : (t == "") = false := beq_eq_false_iff_ne.mpr (findTypeName_fst_ne_empty hf)
        by_cases hn : n = ""
        · have hnb : (n == "") = true := beq_iff_eq.mpr hn
          simp [hf, ht, hnb, hn]
        · have hnb : (n == "") = false := beq_eq_false_iff_ne.mpr hn
          simp [hf, ht, hnb, hn]

theorem amendedTypeName_mem (address t n : String)
    (h : amendedTypeName address = some (t, n)) :
    t ∈ splitDot address ∧ n ∈ splitDot address := by
  unfold amendedTypeName at h
  by_cases hlen : (splitDot address).length < 2
  · simp [hlen] at h
  · simp only [hlen, if_false] at h
    have h2 : (splitDot address).length - 2 < (splitDot address).length := by omega
    have h1 : (splitDot address).length - 1 < (splitDot address).length := by omega
    cases hf : ((splitDot address).zip (splitDot address).tail).find?
        (fun p => isResourceType p.1) with
    | none =>
        rw [hf] at h
        simp only [Option.some.injEq, Prod.mk.injEq] at h
        exact ⟨h.1 ▸ getD_mem_of_lt _ "" h2, h.2 ▸ getD_mem_of_lt _ "" h1⟩
    | some p =>
        obtain ⟨a, b⟩ := p
        rw [hf] at h
        have hmem := List.mem_of_find?_eq_some hf
        have hz := List.of_mem_zip hmem
        have hbm : b ∈ splitDot address := List.mem_of_mem_tail hz.2
        by_cases hb : b = ""
        · simp only [hb, if_pos, Option.some.injEq, Prod.mk.injEq, reduceIte] at h
          exact ⟨h.1 ▸ getD_mem_of_lt _ "" h2, h.2 ▸ getD_mem_of_lt _ "" h1⟩
        · simp only [hb, Option.some.injEq, Prod.mk.injEq, if_neg, reduceIte] at h
          exact ⟨h.1 ▸ hz.1, h.2 ▸ hbm⟩

theorem checkTagPatterns_eq (resource : Resource) (rule : Rule) :
    checkTagPatterns resource rule
      = resource.tags.flatMap fun kv =>
          (rule.tagPatterns.filter fun pat => !pat.accepts kv.1).map fun pat =>
            { rule := rule.name, description := rule.description, resource := resource,
              message := "Tag name '" ++ kv.1 ++ "' does not match pattern: " ++ pat.message } := by
  unfold checkTagPatterns
  congr 1
  funext kv
  exact filterMap_if_none (fun pat : TagPattern => pat.accepts kv.1) _ _

/-! ## Claim theorems -/

/-- C1: Validate processes resources in input order; a resource whose Type
is in Global.IgnoreResourceTypes contributes no violations at all;
otherwise the global-required-tags violations come first (one per missing
AlwaysRequiredTags name, Rule "global-required-tags", in configured order)
followed by each rule's violations in configured rule order; the combined
scenario yields exactly the three expected violations in order. -/
theorem c1_validate_pipeline :
    (∀ (cfg : Config) (r : Resource) (rs : List Resource),
        Validate cfg (r :: rs)
          = (if shouldIgnoreResource cfg r.type then []
             else checkGlobalRequiredTags cfg r ++ cfg.rules.flatMap (checkRule r))
            ++ Validate cfg rs)
  ∧ (∀ (cfg : Config) (r : Resource),
        r.type ∈ cfg.global.ignoreResourceTypes → Validate cfg [r] = [])
  ∧ (∀ (cfg : Config) (r : Resource),
        r.type ∉ cfg.global.ignoreResourceTypes →
          Validate cfg [r] = checkGlobalRequiredTags cfg r ++ cfg.rules.flatMap (checkRule r))
  ∧ (∀ (cfg : Config) (r : Resource),
        checkGlobalRequiredTags cfg r
          = ((cfg.global.alwaysRequiredTags.filter fun t => !(lookupTag r.tags t).isSome).map
              fun t => { rule := "global-required-tags", description := "Global required tags",
                         resource := r, message := "Missing required tag: " ++ t }))
  ∧ (Validate c1Config [c1Resource]).map (fun v => (v.rule, v.message))
      = [("global-required-tags", "Missing required tag: Owner"),
         ("required-tags", "Missing required tag: Name"),
         ("no-test-tags", "Forbidden tag found: Test")] := by
  refine ⟨?_, ?_, ?_, ?_, by decide⟩
  · intro cfg r rs
    simp [Validate, List.flatMap_cons]
  · intro cfg r hmem
    have hig : shouldIgnoreResource cfg r.type = true :=
      (shouldIgnoreResource_iff cfg r.type).mpr hmem
    simp [Validate, hig]
  · intro cfg r hmem
    have hig : shouldIgnoreResource cfg r.type = false := by
      cases hsi : shouldIgnoreResource cfg r.type
      · rfl
      · exact absurd ((shouldIgnoreResource_iff cfg r.type).mp hsi) hmem
    simp [Validate, hig]
  · intro cfg r
    unfold checkGlobalRequiredTags
    exact filterMap_if_none (fun t => (lookupTag r.tags t).isSome) _ _

/-- C1 witness: an ignored-type resource with no tags yields zero
violations even against a config demanding tags. -/
theorem c1_validate_pipeline_witness : Validate c1IgnConfig [c1IgnResource] = [] :=
  c1_validate_pipeline.2.1 c1IgnConfig c1IgnResource (by decide)

/-- C2 (code bug): the Violation sequence is not a function of the Go-map
contents alone.  c2TagsA and c2TagsB are the same tag map (a permutation
with identical lookups) presented in the two range orders the Go runtime
may choose, yet Validate produces observably different sequences, because
the tag-patterns loop ranges over the map. -/
theorem c2_validate_depends_on_map_iteration_order :
    c2TagsA.Perm c2TagsB
  ∧ (∀ k, lookupTag c2TagsA k = lookupTag c2TagsB k)
  ∧ Validate c2Config [c2ResA] ≠ Validate c2Config [c2ResB] := by
  refine ⟨by decide, ?_, by decide⟩
  intro k
  by_cases h1 : k = "a"
  · subst h1; decide
  · by_cases h2 : k = "b"
    · subst h2; decide
    · have ha : (k == "a") = false := beq_eq_false_iff_ne.mpr h1
      have hb : (k == "b") = false := beq_eq_false_iff_ne.mpr h2
      simp [c2TagsA, c2TagsB, lookupTag, List.lookup, ha, hb]

/-- C3 (amended): both extractors gate only on the count of labels or
address segments, and Type/Name are drawn from those labels/segments; the
emitted Type and Name are therefore non-empty whenever the underlying
labels (for source files) or address segments (for plan records) are all
non-empty, but an empty label or segment can reach the model. -/
theorem c3_type_name_amended :
    (∀ (filename : String) (body : HclBody) (resources : List Resource) (r : Resource),
        parseFile filename (.parsed body) = .ok resources → r ∈ resources →
          ∃ block ∈ body.blocks, block.kind = "resource" ∧ 2 ≤ block.labels.length ∧
            r.type = block.labels.getD 0 "" ∧ r.name = block.labels.getD 1 "")
  ∧ (∀ (filename : String) (body : HclBody) (resources : List Resource) (r : Resource),
        parseFile filename (.parsed body) = .ok resources → r ∈ resources →
          (∀ block ∈ body.blocks, ∀ l ∈ block.labels, l ≠ "") →
          r.type ≠ "" ∧ r.name ≠ "")
  ∧ (∀ (planned : PlannedResource) (filename : String) (r : Resource),
        convertPlannedResource planned filename = some r →
          r.type ∈ splitDot planned.address ∧ r.name ∈ splitDot planned.address)
  ∧ (∀ (planned : PlannedResource) (filename : String) (r : Resource),
        convertPlannedResource planned filename = some r →
          (∀ s ∈ splitDot planned.address, s ≠ "") → r.type ≠ "" ∧ r.name ≠ "") := by
  have hplan : ∀ (planned : PlannedResource) (filename : String) (r : Resource),
      convertPlannedResource planned filename = some r →
        r.type ∈ splitDot planned.address ∧ r.name ∈ splitDot planned.address := by
    intro planned filename r h
    rw [convertPlannedResource_eq] at h
    cases ha : amendedTypeName planned.address with
    | none => rw [ha] at h; exact absurd h (by simp)
    | some tn =>
        obtain ⟨t, n⟩ := tn
        rw [ha] at h
        have he := Option.some.inj h
        have hm := amendedTypeName_mem planned.address t n ha
        rw [← he]
        exact hm
  refine ⟨?_, ?_, hplan, ?_⟩
  · intro filename body resources r hok hmem
    exact parseFile_resources filename body resources r hok hmem
  · intro filename body resources r hok hmem hne
    obtain ⟨block, hb, hk, hlen, hty, hna⟩ :=
      parseFile_resources filename body resources r hok hmem
    constructor
    · rw [hty]
      exact hne block hb _ (getD_mem_of_lt block.labels "" (by omega))
    · rw [hna]
      exact hne block hb _ (getD_mem_of_lt block.labels "" (by omega))
  · intro planned filename r h hne
    obtain ⟨h1, h2⟩ := hplan planned filename r h
    exact ⟨hne _ h1, hne _ h2⟩

/-- C3 counterexample: the plan extractor emits a Resource with an empty
Name for the two-segment address "a." — the claim that Type and Name are
never empty for an emitted Resource is false. -/
theorem c3_counterexample :
    (convertPlannedResource ⟨"a.", "", "", []⟩ "plan.json").map (fun r => (r.type, r.name))
      = some ("a", "") := by decide

/-- C3 witness: a well-formed two-segment plan address produces its
non-empty Type and Name. -/
theorem c3_type_name_amended_witness :
    c3WitnessResource.type ≠ "" ∧ c3WitnessResource.name ≠ "" :=
  c3_type_name_amended.2.2.2 ⟨"google_compute_instance.vm", "", "", []⟩ "plan.json"
    c3WitnessResource (by decide) (by decide)

/-- C4 (amended): the derived (Type, Name) of a planned resource equals the
left-to-right scan for the first allow-list segment and its follower, with
the fallback to the final two segments both when no segment matches and
when the matched segment's follower is the empty segment; the three
spec examples behave as stated. -/
theorem c4_address_identity_amended :
    (∀ (planned : PlannedResource) (filename : String),
        (convertPlannedResource planned filename).map (fun r => (r.type, r.name))
          = amendedTypeName planned.address)
  ∧ (convertPlannedResource ⟨"module.vpc.aws_vpc.main", "", "", []⟩ "plan.json").map
        (fun r => (r.type, r.name)) = some ("aws_vpc", "main")
  ∧ (convertPlannedResource ⟨"data.aws_ami.ubuntu", "", "", []⟩ "plan.json").map
        (fun r => (r.type, r.name)) = some ("aws_ami", "ubuntu")
  ∧ convertPlannedResource ⟨"invalid", "", "", []⟩ "plan.json" = none := by
  refine ⟨?_, by decide, by decide, by decide⟩
  intro planned filename
  rw [convertPlannedResource_eq]
  cases h : amendedTypeName planned.address with
  | none => rfl
  | some tn => obtain ⟨t, n⟩ := tn; rfl

/-- C4 counterexample: on address "aws_vpc..x" the claim's derivation
(first matching segment with its follower, fallback only when no segment
matches) yields ("aws_vpc", ""), but the code falls back because the
follower is empty and emits ("", "x"). -/
theorem c4_counterexample :
    claimedTypeName "aws_vpc..x" = some ("aws_vpc", "")
  ∧ (convertPlannedResource ⟨"aws_vpc..x", "", "", []⟩ "plan.json").map
        (fun r => (r.type, r.name)) = some ("", "x")
  ∧ (some ("aws_vpc", "") : Option (String × String)) ≠ some ("", "x") := by decide

/-- C5: the Tags mapping a plan record yields is exactly the string-valued
entries of `tags` overlaid by those of `tags_all` (tags first, tags_all
winning collisions); non-string entries are dropped and a missing or
non-object field contributes nothing, as the concrete cases confirm. -/
theorem c5_plan_tags_merge :
    (∀ (values : List (String × JsonValue)) (k : String),
        lookupTag (extractTagsFromValues values) k
          = firstSome (lookupLast (tagsFieldEntries values "tags_all") k)
                      (lookupLast (tagsFieldEntries values "tags") k))
  ∧ extractTagsFromValues
        [("tags", .obj [("Name", .str "a")]),
         ("tags_all", .obj [("Name", .str "a"), ("Environment", .str "dev")])]
      = [("Name", "a"), ("Environment", "dev")]
  ∧ extractTagsFromValues
        [("tags", .str "placeholder"),
         ("tags_all", .obj [("A", .num 3), ("B", .str "b"), ("C", .boolean true),
                            ("D", .obj [("x", .str "y")])])]
      = [("B", "b")]
  ∧ extractTagsFromValues [("other", .str "z")] = [] := by
  refine ⟨?_, by decide, by decide, by decide⟩
  intro values k
  rcases ht : values.lookup "tags" with _ | tv
  · rcases ha : values.lookup "tags_all" with _ | av
    · simp only [extractTagsFromValues, tagsFieldEntries, ht, ha]
      rfl
    · simp only [extractTagsFromValues, tagsFieldEntries, ht, ha, lookupTag_insertStringEntries]
      rfl
  · rcases ha : values.lookup "tags_all" with _ | av
    · simp only [extractTagsFromValues, tagsFieldEntries, ht, ha, lookupTag_insertStringEntries]
      cases lookupLast (stringEntries tv) k <;> rfl
    · simp only [extractTagsFromValues, tagsFieldEntries, ht, ha, lookupTag_insertStringEntries]
      cases lookupLast (stringEntries tv) k <;> rfl

/-- C6: a tag constraint fires exactly when its Tag is present with a value
outside AllowedValues (case-sensitively); absence never fires; an empty
AllowedValues list rejects any present value; the message joins
AllowedValues with ", " in configured order. -/
theorem c6_tag_constraints :
    (∀ (resource : Resource) (rule : Rule),
        checkTagConstraints resource rule
          = rule.tagConstraints.filterMap (constraintViolationSpec resource rule))
  ∧ (∀ (resource : Resource) (rule : Rule),
        (∀ c ∈ rule.tagConstraints, lookupTag resource.tags c.tag = none) →
          checkTagConstraints resource rule = [])
  ∧ (checkTagConstraints { c7Resource with tags := [("Environment", "production")] } c6Rule).map
        (fun v => v.message)
      = ["Invalid value for tag Environment: 'production'. Allowed values: dev, staging, prod"]
  ∧ checkTagConstraints { c7Resource with tags := [("Environment", "prod")] } c6Rule = []
  ∧ (checkTagConstraints { c7Resource with tags := [("Environment", "anything")] } c6EmptyRule).length
      = 1
  ∧ checkTagConstraints { c7Resource with tags := [] } c6EmptyRule = [] := by
  refine ⟨?_, ?_, by decide, by decide, by decide, by decide⟩
  · intro resource rule
    unfold checkTagConstraints constraintViolationSpec
    apply List.filterMap_congr
    intro c hc
    cases hl : lookupTag resource.tags c.tag with
    | none => rfl
    | some value =>
        by_cases hm : value ∈ c.allowedValues
        · have hv : isValueAllowed value c.allowedValues = true := (isValueAllowed_iff _ _).mpr hm
          simp [hv, hm]
        · have hv : isValueAllowed value c.allowedValues = false := by
            cases hvb : isValueAllowed value c.allowedValues
            · rfl
            · exact absurd ((isValueAllowed_iff _ _).mp hvb) hm
          simp [hv, hm]
  · intro resource rule hall
    unfold checkTagConstraints
    rw [List.filterMap_eq_nil_iff]
    intro c hc
    rw [hall c hc]

/-- C6 witness: a rule whose constraint tag is absent from the resource
emits no constraint violation. -/
theorem c6_tag_constraints_witness : checkTagConstraints c1Resource c6Rule = [] :=
  c6_tag_constraints.2.1 c1Resource c6Rule (by decide)

/-- C7: the tag-patterns check is the full cross product — one violation
per (present tag key, configured pattern) pair whose key the pattern
rejects, multiplicity preserved — and the leading-uppercase example yields
exactly the one violation for "environment". -/
theorem c7_tag_patterns_cross_product :
    (∀ (resource : Resource) (rule : Rule),
        checkTagPatterns resource rule
          = resource.tags.flatMap fun kv =>
              (rule.tagPatterns.filter fun pat => !pat.accepts kv.1).map fun pat =>
                { rule := rule.name, description := rule.description, resource := resource,
                  message := "Tag name '" ++ kv.1 ++ "' does not match pattern: "
                    ++ pat.message })
  ∧ (∀ (resource : Resource) (rule : Rule),
        (checkTagPatterns resource rule).length
          = (resource.tags.map fun kv =>
              (rule.tagPatterns.filter fun pat => !pat.accepts kv.1).length).sum)
  ∧ (checkTagPatterns c7Resource c7Rule).map (fun v => v.message)
      = ["Tag name 'environment' does not match pattern: must start uppercase"]
  ∧ checkRule c7Resource c7Rule = checkTagPatterns c7Resource c7Rule := by
  refine ⟨checkTagPatterns_eq, ?_, by decide, by decide⟩
  intro resource rule
  rw [checkTagPatterns_eq, List.length_flatMap]
  simp [Function.comp_def, List.length_map]

/-- C8: a rule contributes nothing unless its resource-type allow-list is
empty or contains the resource's type, and its condition (if any) matches
exactly (a missing condition tag fails it); when both gates hold the rule
contributes precisely its four checks' violations in order; the
condition-gating example yields zero violations. -/
theorem c8_rule_applicability_gates :
    (∀ (resource : Resource) (rule : Rule),
        rule.resourceTypes ≠ [] → resource.type ∉ rule.resourceTypes →
          checkRule resource rule = [])
  ∧ (∀ (resource : Resource) (rule : Rule) (c : Condition),
        rule.condition = some c → lookupTag resource.tags c.tag ≠ some c.value →
          checkRule resource rule = [])
  ∧ (∀ (resource : Resource) (rule : Rule),
        (rule.resourceTypes = [] ∨ resource.type ∈ rule.resourceTypes) →
        (rule.condition = none ∨
          ∃ c, rule.condition = some c ∧ lookupTag resource.tags c.tag = some c.value) →
          checkRule resource rule
            = checkRequiredTags resource rule ++ checkForbiddenTags resource rule ++
                checkTagConstraints resource rule ++ checkTagPatterns resource rule)
  ∧ checkRule c8Resource c8Rule = [] := by
  refine ⟨?_, ?_, ?_, by decide⟩
  · intro resource rule h1 h2
    have hlen : 0 < rule.resourceTypes.length := List.length_pos.mpr h1
    have hmem : isResourceTypeInList resource.type rule.resourceTypes = false := by
      cases hv : isResourceTypeInList resource.type rule.resourceTypes
      · rfl
      · exact absurd ((isResourceTypeInList_iff _ _).mp hv) h2
    unfold checkRule
    simp [hlen, hmem]
  · intro resource rule c hc hl
    have hcond : checkCondition resource c = false := by
      cases hv : checkCondition resource c
      · rfl
      · exact absurd ((checkCondition_iff _ _).mp hv) hl
    unfold checkRule
    split
    · rfl
    · rw [hc]
      simp [hcond]
  · intro resource rule h1 h2
    have hg1 : (rule.resourceTypes.length > 0
        && !isResourceTypeInList resource.type rule.resourceTypes) = false := by
      cases h1 with
      | inl he => simp [he]
      | inr hm =>
          have := (isResourceTypeInList_iff _ _).mpr hm
          simp [this]
    have hg2 : (match rule.condition with
        | some condition => !checkCondition resource condition
        | none => false) = false := by
      cases h2 with
      | inl hn => rw [hn]
      | inr hex =>
          obtain ⟨c, hc, hl⟩ := hex
          rw [hc]
          have := (checkCondition_iff resource c).mpr hl
          simp [this]
    unfold checkRule
    simp [hg1, hg2]

/-- C8 witness: a rule restricted to aws_s3_bucket contributes nothing for
an aws_instance resource. -/
theorem c8_rule_applicability_gates_witness : checkRule c8Resource c8TypedRule = [] :=
  c8_rule_applicability_gates.1 c8Resource c8TypedRule (by decide) (by decide)

/-- C9: ParseTerraformFiles isolates failures per file — every file
contributes exactly its own resources (none on failure) and exactly one
wrapped error on failure (none on success), independent of its siblings;
the three-file scenario records one error and keeps both valid files'
resources. -/
theorem c9_per_file_isolation :
    (∀ files : List (String × FileParse),
        (ParseTerraformFiles files).resources = files.flatMap okResources
          ∧ (ParseTerraformFiles files).errors = files.filterMap errOf)
  ∧ (∀ fname msg : String,
        errOf (fname, .failed msg) = some (fname ++ ": " ++ ("failed to parse HCL: " ++ msg))
          ∧ okResources (fname, .failed msg) = [])
  ∧ (∀ (pre post : List (String × FileParse)) (fname msg : String),
        (ParseTerraformFiles (pre ++ (fname, .failed msg) :: post)).resources
            = (ParseTerraformFiles (pre ++ post)).resources
          ∧ (ParseTerraformFiles (pre ++ (fname, .failed msg) :: post)).errors
            = (ParseTerraformFiles pre).errors
                ++ (fname ++ ": " ++ ("failed to parse HCL: " ++ msg))
                  :: (ParseTerraformFiles post).errors)
  ∧ (ParseTerraformFiles c9Files).errors = ["bad.tf: failed to parse HCL: boom"]
  ∧ (ParseTerraformFiles c9Files).resources.map (fun r => (r.type, r.name))
      = [("aws_instance", "web"), ("aws_s3_bucket", "logs")] := by
  have hchar : ∀ files : List (String × FileParse),
      (ParseTerraformFiles files).resources = files.flatMap okResources
        ∧ (ParseTerraformFiles files).errors = files.filterMap errOf := by
    intro files
    unfold ParseTerraformFiles
    rw [ParseTerraformFiles_foldl]
    simp
  refine ⟨hchar, ?_, ?_, by decide, by decide⟩
  · intro fname msg
    exact ⟨rfl, rfl⟩
  · intro pre post fname msg
    constructor
    · rw [(hchar _).1, (hchar _).1]
      simp [okResources, parseFile]
    · rw [(hchar _).2, (hchar pre).2, (hchar post).2]
      simp [errOf, parseFile]

/-- C10: every Resource the plan extractor emits carries the synthetic
location — filename and File equal the plan path, start and end fixed at
line 1, column 1, byte 0. -/
theorem c10_plan_synthetic_location (planned : PlannedResource) (filename : String)
    (r : Resource) (h : convertPlannedResource planned filename = some r) :
    r.location.filename = filename ∧ r.file = filename
      ∧ r.location.start = ⟨1, 1, 0⟩ ∧ r.location.stop = ⟨1, 1, 0⟩ := by
  rw [convertPlannedResource_eq] at h
  cases ha : amendedTypeName planned.address with
  | none => rw [ha] at h; exact absurd h (by simp)
  | some tn =>
      obtain ⟨t, n⟩ := tn
      rw [ha] at h
      have he := Option.some.inj h
      rw [← he]
      exact ⟨rfl, rfl, rfl, rfl⟩

/-- C10 witness: the resource extracted from address "aws_vpc.main" in
plan.json carries the synthetic line-1 location. -/
theorem c10_plan_synthetic_location_witness :
    c10Resource.location.filename = "plan.json" ∧ c10Resource.file = "plan.json"
      ∧ c10Resource.location.start = ⟨1, 1, 0⟩ ∧ c10Resource.location.stop = ⟨1, 1, 0⟩ :=
  c10_plan_synthetic_location ⟨"aws_vpc.main", "", "", []⟩ "plan.json" c10Resource (by decide)

end Tftaglint
